import Mathlib

/-!
Verification of the ray-tracing / ray-marching renderer.

The Rust sources are shallowly embedded over exact rational arithmetic
(`ℚ` in place of `f32`).  Operations that have no exact rational
counterpart (`sqrt`, `powf`) are abstracted into a context `Ctx` of
function parameters, and the thread-local random generator is modelled
as an infinite tape `ℕ → ℚ` together with an explicit cursor that is
threaded through the computation exactly where the Rust code mutates
the generator.  Rust `Vec` indexing, which panics when out of range, is
modelled with `Option`.

The repository mixes several revisions; the embedding follows the
revision each claim cites: `ray_tracing/ray_tracing.rs` for the tracer,
`ray_marching/ray_marching.rs` for the marcher, `utils/geometry.rs`,
`utils/union.rs`, `utils/substraction.rs` for the CSG distance fields,
`ray.rs` for rays/reflection/refraction/sphere intersection,
`objects.rs` for materials and textures, `light.rs` for lights and
`renderer.rs` for the renderer's frame bookkeeping.
-/

namespace RT

/-- Three-component vector, the embedding of `glam::Vec3` over `ℚ`. -/
structure Vec3 where
  x : ℚ
  y : ℚ
  z : ℚ
deriving DecidableEq, Repr

namespace Vec3

/-- `Vec3::ZERO`. -/
def ZERO : Vec3 := ⟨0, 0, 0⟩

/-- `Vec3::ONE`. -/
def ONE : Vec3 := ⟨1, 1, 1⟩

/-- Component-wise addition (`glam` `Add`). -/
instance : Add Vec3 := ⟨fun a b => ⟨a.x + b.x, a.y + b.y, a.z + b.z⟩⟩

/-- Component-wise subtraction (`glam` `Sub`). -/
instance : Sub Vec3 := ⟨fun a b => ⟨a.x - b.x, a.y - b.y, a.z - b.z⟩⟩

/-- Component-wise negation (`glam` `Neg`). -/
instance : Neg Vec3 := ⟨fun a => ⟨-a.x, -a.y, -a.z⟩⟩

/-- Component-wise multiplication (`glam` `Mul<Vec3>`). -/
instance : Mul Vec3 := ⟨fun a b => ⟨a.x * b.x, a.y * b.y, a.z * b.z⟩⟩

/-- Scalar multiplication `f32 * Vec3`. -/
instance : SMul ℚ Vec3 := ⟨fun a v => ⟨a * v.x, a * v.y, a * v.z⟩⟩

/-- Scalar multiplication on the right, `Vec3 * f32`. -/
instance : HMul Vec3 ℚ Vec3 := ⟨fun v a => ⟨v.x * a, v.y * a, v.z * a⟩⟩

/-- Scalar division, `Vec3 / f32`. -/
instance : HDiv Vec3 ℚ Vec3 := ⟨fun v a => ⟨v.x / a, v.y / a, v.z / a⟩⟩

/-- `Vec3::dot`. -/
def dot (a b : Vec3) : ℚ := a.x * b.x + a.y * b.y + a.z * b.z

end Vec3

/-- Four-component vector (`glam::Vec4`). -/
structure Vec4 where
  x : ℚ
  y : ℚ
  z : ℚ
  w : ℚ
deriving DecidableEq, Repr

namespace Vec4

instance : Add Vec4 := ⟨fun a b => ⟨a.x + b.x, a.y + b.y, a.z + b.z, a.w + b.w⟩⟩

instance : SMul ℚ Vec4 := ⟨fun a v => ⟨a * v.x, a * v.y, a * v.z, a * v.w⟩⟩

/-- `Vec4::xyz()`. -/
def xyz (v : Vec4) : Vec3 := ⟨v.x, v.y, v.z⟩

end Vec4

/-- Column-major 4×4 matrix (`glam::Mat4`), stored as its four columns. -/
structure Mat4 where
  c0 : Vec4
  c1 : Vec4
  c2 : Vec4
  c3 : Vec4
deriving DecidableEq, Repr

/-- `Mat4 * Vec4` (column-major linear combination). -/
def Mat4.mulVec4 (m : Mat4) (v : Vec4) : Vec4 :=
  v.x • m.c0 + v.y • m.c1 + v.z • m.c2 + v.w • m.c3

/-- `(m * vec4(v.x, v.y, v.z, 1.)).xyz()` — transforming a point. -/
def Mat4.transformPoint (m : Mat4) (v : Vec3) : Vec3 :=
  (m.mulVec4 ⟨v.x, v.y, v.z, 1⟩).xyz

/-- `(m * vec4(v.x, v.y, v.z, 0.)).xyz()` — transforming a direction. -/
def Mat4.transformDir (m : Mat4) (v : Vec3) : Vec3 :=
  (m.mulVec4 ⟨v.x, v.y, v.z, 0⟩).xyz

/-- The identity matrix. -/
def Mat4.id4 : Mat4 := ⟨⟨1, 0, 0, 0⟩, ⟨0, 1, 0, 0⟩, ⟨0, 0, 1, 0⟩, ⟨0, 0, 0, 1⟩⟩

/-- The operations of `f32` with no exact rational counterpart, abstracted
as function parameters of the embedding: `sqrt` and `powf`. -/
structure Ctx where
  sqrt : ℚ → ℚ
  powf : ℚ → ℚ → ℚ

/-- `Vec3::normalize`: `v / v.length()` with `length = sqrt (dot v v)`. -/
def vnormalize (ctx : Ctx) (v : Vec3) : Vec3 :=
  (1 / ctx.sqrt (Vec3.dot v v)) • v

/-- `Vec3::length`. -/
def vlength (ctx : Ctx) (v : Vec3) : ℚ := ctx.sqrt (Vec3.dot v v)

/-- `Vec3::powf` applies `powf` per component. -/
def vpowf (ctx : Ctx) (v : Vec3) (e : ℚ) : Vec3 :=
  ⟨ctx.powf v.x e, ctx.powf v.y e, ctx.powf v.z e⟩

/-- `ray.rs`: `pub static EPSILON: f32 = 0.0001_f32`. -/
def EPSILON : ℚ := 1 / 10000

/-- `ray.rs`: a ray with `origin` and `direction`. -/
structure Ray where
  origin : Vec3
  direction : Vec3
deriving DecidableEq, Repr

/-- `ray.rs`: `RayHit`. -/
structure RayHit where
  distance : ℚ
  point : Vec3
  normal : Vec3
  material_index : ℕ
  u : ℚ
  v : ℚ
deriving DecidableEq, Repr

/-- `RayMarchingHit` of the marcher revision: the struct itself is not among
the staged files, its fields (`distance`, `albedo`, `transformed_ray`) are
those `ray_marching.rs`, `union.rs` and `substraction.rs` construct and read. -/
structure RayMarchingHit where
  distance : ℚ
  albedo : Vec3
  transformed_ray : Ray
deriving DecidableEq, Repr

/-- `utils/geometry.rs`: `mix(x, y, a) = x * (1 - a) + y * a`. -/
def mix (x y a : ℚ) : ℚ := x * (1 - a) + y * a

/-- `utils/geometry.rs`: `mix_vec3(x, y, a) = x * (1 - a) + y * a`. -/
def mix_vec3 (x y : Vec3) (a : ℚ) : Vec3 := x * (1 - a) + y * a

/-- Rust `f32::clamp(lo, hi)`: `min (max x lo) hi`. -/
def rclamp (x lo hi : ℚ) : ℚ := min (max x lo) hi

/-- `utils/geometry.rs`: `interpolation(d1, d2, k) = (0.5 + 0.5*(d2-d1)/k).clamp(0,1)`. -/
def interpolation (d1 d2 k : ℚ) : ℚ :=
  rclamp (1 / 2 + 1 / 2 * (d2 - d1) / k) 0 1

/-- `utils/geometry.rs`: `smooth_union`. -/
def smooth_union (d1 d2 k : ℚ) : ℚ :=
  let h := rclamp (1 / 2 + 1 / 2 * (d2 - d1) / k) 0 1
  mix d2 d1 h - k * h * (1 - h)

/-- `utils/geometry.rs`: `reflect(vec, normal) = vec - 2*(vec·normal)*normal`
(also `Ray::reflect_vec` in `ray.rs`). -/
def reflect_vec (vec normal : Vec3) : Vec3 :=
  vec - (2 * Vec3.dot vec normal) • normal

/-- `Ray::reflect`: reflect the ray's own direction. -/
def Ray.reflect (self : Ray) (normal : Vec3) : Vec3 :=
  reflect_vec self.direction normal

/-- `utils/union.rs`: `Union::sdf` on the two children's already-evaluated
distance-field results (the children are fetched from `scene.objects` and
evaluated first; the combination acts only on the two `RayMarchingHit`s). -/
def Union_sdf (h1 h2 : RayMarchingHit) : RayMarchingHit :=
  let i := interpolation h1.distance h2.distance (7 / 10)
  let col := mix_vec3 h1.albedo h2.albedo (1 - i)
  let d := smooth_union h1.distance h2.distance (7 / 10)
  if h1.distance < h2.distance then ⟨d, col, h1.transformed_ray⟩
  else ⟨d, col, h2.transformed_ray⟩

/-- `objects.rs`: `MaterialType`. -/
inductive MaterialType where
  | Reflective (roughness : ℚ)
  | Refractive (transparency refraction_index reflectivity : ℚ)
deriving DecidableEq, Repr

/-- `objects.rs`: `Texture` — a decoded image: width, height and the raw
byte buffer (`path` is irrelevant to sampling and omitted). -/
structure Texture where
  width : ℕ
  height : ℕ
  bytes : List ℕ
deriving DecidableEq, Repr

/-- `objects.rs`: `Material`. -/
structure Material where
  ambience : ℚ
  diffuse : ℚ
  specular : ℚ
  shininess : ℚ
  albedo : Vec3
  texture : Option ℕ
  kind : MaterialType
  emission_power : ℚ
deriving DecidableEq, Repr

/-- Rust's saturating float-to-`u32` `as` cast: truncate toward zero, clamp
into `[0, u32::MAX]`. -/
def f32_as_u32 (q : ℚ) : ℕ :=
  if q ≤ 0 then 0 else min ⌊q⌋.toNat (2 ^ 32 - 1)

/-- `objects.rs`: `Texture::pixel`.  The byte position is computed in `u32`
arithmetic (wrapping, modelled with `% 2^32`); the three `Vec` index reads
panic when out of range, modelled as `Option`. -/
def Texture.pixel (t : Texture) (x y : ℕ) : Option Vec3 :=
  let pos := (y * 3 % 2 ^ 32 * t.width % 2 ^ 32 + x * 3 % 2 ^ 32) % 2 ^ 32
  match (t.bytes[pos]? : Option ℕ), (t.bytes[pos + 1]? : Option ℕ),
      (t.bytes[pos + 2]? : Option ℕ) with
  | some r, some g, some b => some ⟨(r : ℚ) / 255, (g : ℚ) / 255, (b : ℚ) / 255⟩
  | _, _, _ => none

/-- The byte offset `Texture.pixel` reads, for the statements about it. -/
def Texture.byte_pos (t : Texture) (x y : ℕ) : ℕ :=
  (y * 3 % 2 ^ 32 * t.width % 2 ^ 32 + x * 3 % 2 ^ 32) % 2 ^ 32

/-- `objects.rs`: `Texture::baricentric_pixel(u, v)` — scale by the image
size and cast with Rust `as u32` (saturating), then read the pixel. -/
def Texture.baricentric_pixel (t : Texture) (u v : ℚ) : Option Vec3 :=
  t.pixel (f32_as_u32 ((t.width : ℚ) * u)) (f32_as_u32 ((t.height : ℚ) * v))

/-- Modelled from the spec: `Texture::from_uv`, the sampling entry the tracer
calls, is not among the staged files; per the spec it samples "with
wraparound addressing (values <0 or >1 wrap via fractional reflection, not
hard clamp)".  The wrapped coordinate folds the fractional part of `|q|`
back into `[0,1)`; a read that still misses the buffer yields black. -/
def wrap_uv (q : ℚ) : ℚ := |q| - ⌊|q|⌋

/-- Modelled from the spec: see `wrap_uv`. -/
def Texture.from_uv (t : Texture) (u v : ℚ) : Vec3 :=
  (t.baricentric_pixel (wrap_uv u) (wrap_uv v)).getD Vec3.ZERO

/-- `light.rs`: the `Light` variants (each structure inlined). -/
inductive Light where
  | Directional (albedo direction : Vec3) (intensity : ℚ)
  | Positional (albedo position : Vec3) (intensity : ℚ)
  | SphericalPositional (albedo position : Vec3) (radius intensity : ℚ)
deriving DecidableEq, Repr

namespace Light

/-- `light.rs`: `LightSource::direction`. -/
def direction (ctx : Ctx) (l : Light) (point : Vec3) : Vec3 :=
  match l with
  | Directional _ d _ => d
  | Positional _ p _ => vnormalize ctx (point - p)
  | SphericalPositional _ p _ _ => vnormalize ctx (point - p)

/-- `light.rs`: `LightSource::distance`. -/
def distance (ctx : Ctx) (l : Light) (point : Vec3) : ℚ :=
  match l with
  | Directional _ _ _ => 1
  | Positional _ p _ => vlength ctx (point - p)
  | SphericalPositional _ p _ _ => vlength ctx (point - p)

/-- `light.rs`: `LightSource::intensity`. -/
def intensity (l : Light) : ℚ :=
  match l with
  | Directional _ _ i => i
  | Positional _ _ i => i
  | SphericalPositional _ _ _ i => i

/-- `light.rs`: `LightSource::albedo`. -/
def albedoOf (l : Light) : Vec3 :=
  match l with
  | Directional a _ _ => a
  | Positional a _ _ => a
  | SphericalPositional a _ _ _ => a

end Light

/-- The `Scene` of the `ray_tracing.rs` revision.  Its `struct` declaration
is not among the staged files; the fields are exactly those
`ray_tracing/ray_tracing.rs` reads (`objects`, `materials`, `textures`,
`lights`, `ambient_color`, `diffuse`, `enable_accumulation`,
`shadow_casting`, `max_ray_bounces`).  The object type is a parameter: the
tracer consumes objects only through `ray.hit`. -/
structure Scene (Obj : Type) where
  objects : List Obj
  materials : List Material
  textures : List Texture
  lights : List Light
  ambient_color : Vec3
  diffuse : Bool
  enable_accumulation : Bool
  shadow_casting : Bool
  max_ray_bounces : ℕ

/-- `f32::MAX`, the initial value of `closest_t` in `trace_ray`. -/
def fMAX : ℚ := 2 ^ 128 - 2 ^ 104

/-- The loop of `RayTracing::trace_ray` (`ray_tracing.rs:68-75`): scan the
objects in order, keeping the closest hit with `distance > 0 &&
distance < closest_t`.  `hf` is `ray.hit` applied to the fixed ray. -/
def traceLoop {Obj : Type} (hf : Obj → Option RayHit) :
    List Obj → ℕ → ℚ → Option (RayHit × ℕ) → Option (RayHit × ℕ)
  | [], _, _, acc => acc
  | o :: rest, idx, closest, acc =>
    match hf o with
    | some t =>
      if 0 < t.distance ∧ t.distance < closest then
        traceLoop hf rest (idx + 1) t.distance (some (t, idx))
      else
        traceLoop hf rest (idx + 1) closest acc
    | none => traceLoop hf rest (idx + 1) closest acc

/-- `RayTracing::trace_ray` (`ray_tracing.rs:59-78`): empty scene short
circuit, then the scan with `closest_t = f32::MAX` and no hit. -/
def trace_ray {Obj : Type} (hitF : Ray → Obj → Option RayHit)
    (objects : List Obj) (ray : Ray) : Option (RayHit × ℕ) :=
  if objects.isEmpty then none
  else traceLoop (hitF ray) objects 0 fMAX none

/-- The first index attaining the least hit distance below `closest`: the
reference scan `traceLoop` is proved equal to (its result overriding the
accumulator). -/
def bestBelow {Obj : Type} (hf : Obj → Option RayHit) :
    List Obj → ℕ → ℚ → Option (RayHit × ℕ)
  | [], _, _ => none
  | o :: rest, idx, closest =>
    match hf o with
    | some t =>
      if 0 < t.distance ∧ t.distance < closest then
        match bestBelow hf rest (idx + 1) t.distance with
        | some r => some r
        | none => some (t, idx)
      else bestBelow hf rest (idx + 1) closest
    | none => bestBelow hf rest (idx + 1) closest

/-- `utils/substraction.rs`: the `Substraction` CSG node holds the indices of
its two children in `scene.objects`. -/
structure Substraction where
  first : ℕ
  second : ℕ
deriving DecidableEq, Repr

/-- `utils/substraction.rs`: `Substraction::sdf`.  The children fetched from
`scene.objects` are evaluated through their own `sdf`; their results at the
current sample are abstracted as `childSdf`, the `material_index()` of an
object as `matIndexOf`, and `scene.materials[...]` indexing (which panics
when out of range) as an `Option` lookup. -/
def Substraction.sdf (s : Substraction) (childSdf : ℕ → RayMarchingHit)
    (matIndexOf : ℕ → ℕ) (materials : List Material) : Option RayMarchingHit :=
  let h1 := childSdf s.first
  let h2 := childSdf s.second
  let d := max (-h2.distance) h1.distance
  match materials.get? (matIndexOf s.first) with
  | some m => some ⟨d, m.albedo, h2.transformed_ray⟩
  | none => none

/-- `ray.rs`: `Ray::blinn_phong`. -/
def Ray.blinn_phong (ctx : Ctx) (self : Ray) (hit : RayHit) (light : Light)
    (color : Vec3) (material : Material) : Vec3 :=
  let coeff := Vec3.dot hit.normal (-(light.direction ctx hit.point))
  let ambience := material.ambience • color
  let diffuse := (material.diffuse * max coeff 0) • color
  let half_angle := vnormalize ctx (-self.direction - light.direction ctx hit.point)
  let shininess := ctx.powf (max (Vec3.dot hit.normal half_angle) 0) material.shininess
  let specular := (material.specular * shininess) • color
  ambience + diffuse + specular

/-- `objects.rs`: `Material::fresnel` (Schlick's approximation, with the
reflectivity blend). -/
def Material.fresnel (ctx : Ctx) (_m : Material) (incident normal : Vec3)
    (refraction_index reflectivity : ℚ) : ℚ :=
  let n2 := refraction_index
  let n1 : ℚ := 1
  let r0 := ((n1 - n2) / (n1 + n2)) * ((n1 - n2) / (n1 + n2))
  let cos_x := -(Vec3.dot normal incident)
  if n1 > n2 then
    let n := n1 / n2
    let sin_t2 := n * n * (1 - cos_x * cos_x)
    if sin_t2 > 1 then (1 : ℚ)
    else
      let cos_x2 := ctx.sqrt (1 - sin_t2)
      let x := 1 - cos_x2
      let ret := r0 + (1 - r0) * x * x * x * x * x
      reflectivity + (1 - reflectivity) * ret
  else
    let x := 1 - cos_x
    let ret := r0 + (1 - r0) * x * x * x * x * x
    reflectivity + (1 - reflectivity) * ret

/-- `ray.rs`: `Ray::refraction_ray` — flips the normal and swaps the index
ratio by the sign of `direction·normal`, and returns `None` exactly on a
negative discriminant. -/
def Ray.refraction_ray (ctx : Ctx) (self : Ray) (hit : RayHit)
    (refraction_index : ℚ) : Option Ray :=
  let c1 := Vec3.dot self.direction hit.normal
  let normal := if c1 < 0 then hit.normal else -hit.normal
  let eta_i := if c1 < 0 then (1 : ℚ) else refraction_index
  let eta_t := if c1 < 0 then refraction_index else (1 : ℚ)
  let c1p := if c1 < 0 then -c1 else c1
  let eta := eta_i / eta_t
  let k := 1 - eta * eta * (1 - c1p * c1p)
  if k < 0 then none
  else
    let c2 := ctx.sqrt k
    some ⟨hit.point - EPSILON • normal,
          eta • self.direction + (eta * c1p - c2) • normal⟩

/-- The refraction discriminant as the claim states it: `k = 1 - η²(1-c1²)`
with `η` the entering/exiting index ratio selected by the sign of
`direction·normal`. -/
def refraction_discriminant (self : Ray) (hit : RayHit)
    (refraction_index : ℚ) : ℚ :=
  let c1 := Vec3.dot self.direction hit.normal
  let eta := if c1 < 0 then 1 / refraction_index else refraction_index / 1
  1 - eta * eta * (1 - c1 * c1)

/-- The random tape: `rnd.gen_range` draws the next three tape values as the
components of a vector and advances the cursor. -/
def gen3 (rnd : ℕ → ℚ) (pos : ℕ) : Vec3 × ℕ :=
  (⟨rnd pos, rnd (pos + 1), rnd (pos + 2)⟩, pos + 3)

/-- `ray.rs`: `Ray::reflection_ray`.  In the non-diffuse branch the jitter is
`roughness * vec3(gen_range(-0.5..0.5), ...)` when accumulation is enabled
and zero otherwise; in the diffuse branch the direction is
`normalize(normal + vec3(gen_range(-1.0..1.0), ...))`. -/
def Ray.reflection_ray (ctx : Ctx) (rnd : ℕ → ℚ) (self : Ray) (hit : RayHit)
    (roughness : ℚ) (pos : ℕ) (diffuse enable_accumulation : Bool) :
    Ray × ℕ :=
  if diffuse = false then
    let fp : Vec3 × ℕ :=
      if enable_accumulation then
        let g := gen3 rnd pos
        (roughness • g.1, g.2)
      else (Vec3.ZERO, pos)
    let dir := vnormalize ctx (reflect_vec self.direction (hit.normal + fp.1))
    (⟨hit.point + hit.normal * EPSILON, dir⟩, fp.2)
  else
    let g := gen3 rnd pos
    let dir := vnormalize ctx (hit.normal + g.1)
    (⟨hit.point + hit.normal * EPSILON, dir⟩, g.2)

/-- `RayTracing::light` (`ray_tracing.rs:28-57`): accumulate the
Blinn-Phong term of every light attenuated by inverse-square distance, then,
when `shadow_casting`, halve the accumulator once for every light whose
shadow ray hits an object of a different index, and gamma-correct with
`powf 0.4166`. -/
def RayTracing.light {Obj : Type} (ctx : Ctx) (scene : Scene Obj)
    (hitF : Ray → Obj → Option RayHit) (ray : Ray) (hit : RayHit)
    (albedo : Vec3) (material : Material) (obj_index : ℕ) : Vec3 :=
  let l_acc := scene.lights.foldl
    (fun acc l =>
      let k := ray.blinn_phong ctx hit l albedo material
      let light_dis := l.distance ctx hit.point
      acc + k / (light_dis * light_dis) * l.albedoOf * l.intensity)
    Vec3.ZERO
  let l_acc :=
    if scene.shadow_casting then
      scene.lights.foldl
        (fun acc l =>
          match trace_ray hitF scene.objects
              ⟨hit.point + EPSILON • hit.normal, -(l.direction ctx hit.point)⟩ with
          | some (_, idx) => if idx ≠ obj_index then acc * (1 / 2 : ℚ) else acc
          | none => acc)
        l_acc
    else l_acc
  vpowf ctx l_acc (4166 / 10000)

/-- The first accumulation pass of `RayTracing::light`, named for the
statements about it. -/
def light_base {Obj : Type} (ctx : Ctx) (scene : Scene Obj) (ray : Ray)
    (hit : RayHit) (albedo : Vec3) (material : Material) : Vec3 :=
  scene.lights.foldl
    (fun acc l =>
      let k := ray.blinn_phong ctx hit l albedo material
      let light_dis := l.distance ctx hit.point
      acc + k / (light_dis * light_dis) * l.albedoOf * l.intensity)
    Vec3.ZERO

/-- Whether `RayTracing::light` halves the accumulator for light `l`: the
shadow ray from the epsilon-offset hit point toward the light meets a
nearest object whose index differs from the shaded object's.  The distance
to the light plays no role. -/
def shadowed {Obj : Type} (ctx : Ctx) (scene : Scene Obj)
    (hitF : Ray → Obj → Option RayHit) (hit : RayHit) (obj_index : ℕ)
    (l : Light) : Bool :=
  match trace_ray hitF scene.objects
      ⟨hit.point + EPSILON • hit.normal, -(l.direction ctx hit.point)⟩ with
  | some (_, idx) => decide (idx ≠ obj_index)
  | none => false

/-- How many lights `RayTracing::light` halves the accumulator for. -/
def shadow_count {Obj : Type} (ctx : Ctx) (scene : Scene Obj)
    (hitF : Ray → Obj → Option RayHit) (hit : RayHit) (obj_index : ℕ) : ℕ :=
  if scene.shadow_casting then
    scene.lights.countP (shadowed ctx scene hitF hit obj_index)
  else 0

/-- Follows the claim's words, for comparison with `RayTracing.light`: the
contribution is halved for a light exactly when the shadow ray's nearest
hit lies strictly before the light (any object, the shaded one included). -/
def claim_light {Obj : Type} (ctx : Ctx) (scene : Scene Obj)
    (hitF : Ray → Obj → Option RayHit) (ray : Ray) (hit : RayHit)
    (albedo : Vec3) (material : Material) (_obj_index : ℕ) : Vec3 :=
  let l_acc := light_base ctx scene ray hit albedo material
  let l_acc :=
    if scene.shadow_casting then
      scene.lights.foldl
        (fun acc l =>
          match trace_ray hitF scene.objects
              ⟨hit.point + EPSILON • hit.normal, -(l.direction ctx hit.point)⟩ with
          | some (h2, _) =>
            if h2.distance < l.distance ctx hit.point then acc * (1 / 2 : ℚ)
            else acc
          | none => acc)
        l_acc
    else l_acc
  vpowf ctx l_acc (4166 / 10000)

/-- `RayTracing::color` (`ray_tracing.rs:160-241`): the recursive analytic
tracer.  `rnd`/`pos` thread the random tape and out-of-range `Vec` indexing
is `none`.  The Rust recursion is bounded by the `depth >= max_ray_bounces`
guard; here it is realized structurally on the fuel `max_ray_bounces + 1 -
depth` (see `RayTracing.color`): the guard fires before the fuel can run
out, and the fuel-exhausted value equals the guard's return value, so the
function agrees with the Rust control flow at every depth. -/
def RayTracing.colorAux {Obj : Type} (ctx : Ctx) (scene : Scene Obj)
    (hitF : Ray → Obj → Option RayHit) (rnd : ℕ → ℚ) :
    ℕ → Ray → ℕ → Vec3 → Vec3 → ℕ → Option (Vec3 × ℕ)
  | 0, _, _, light_color, _, pos => some (light_color, pos)
  | fuel + 1, ray, depth, light_color, contribution, pos =>
    if scene.max_ray_bounces ≤ depth then some (light_color, pos)
    else
      match trace_ray hitF scene.objects ray with
      | some (hit, obj_index) =>
        match scene.materials.get? hit.material_index with
        | none => none
        | some material =>
          match material.kind with
          | MaterialType.Reflective roughness =>
            let albedoRes : Option Vec3 :=
              match material.texture with
              | some tidx => (scene.textures.get? tidx).map
                  (fun tex => tex.from_uv hit.u hit.v)
              | none => some material.albedo
            match albedoRes with
            | none => none
            | some albedo =>
              let p_light := RayTracing.light ctx scene hitF ray hit albedo
                material obj_index
              let rp := ray.reflection_ray ctx rnd hit roughness pos
                scene.diffuse scene.enable_accumulation
              match RayTracing.colorAux ctx scene hitF rnd fuel rp.1
                  (depth + 1) p_light (contribution * albedo) rp.2 with
              | none => none
              | some (reflected_col, pos2) =>
                some (p_light * roughness +
                  p_light * reflected_col * (1 - roughness), pos2)
          | MaterialType.Refractive transparency refraction_index
              reflectivity =>
            let albedo := material.albedo
            let kr := material.fresnel ctx ray.direction hit.normal
              refraction_index reflectivity
            let refr : Option (Vec3 × ℕ) :=
              match ray.refraction_ray ctx hit refraction_index with
              | some refraction_r =>
                RayTracing.colorAux ctx scene hitF rnd fuel refraction_r
                  (depth + 1) light_color (contribution * albedo) pos
              | none => some (Vec3.ZERO, pos)
            match refr with
            | none => none
            | some (refraction_color, pos1) =>
              let reflection_r : Ray :=
                ⟨hit.point + EPSILON • hit.normal, ray.reflect hit.normal⟩
              let p_light := RayTracing.light ctx scene hitF ray hit albedo
                material obj_index
              match RayTracing.colorAux ctx scene hitF rnd fuel reflection_r
                  (depth + 1) p_light (contribution * albedo) pos1 with
              | none => none
              | some (reflection_color, pos2) =>
                some ((reflection_color * kr +
                  refraction_color * (1 - kr) * transparency) * albedo, pos2)
      | none => some (light_color + scene.ambient_color * contribution, pos)

/-- `RayTracing::color` at depth `depth`: run `colorAux` with fuel
`max_ray_bounces + 1 - depth`, which the depth guard never exhausts. -/
def RayTracing.color {Obj : Type} (ctx : Ctx) (scene : Scene Obj)
    (hitF : Ray → Obj → Option RayHit) (rnd : ℕ → ℚ) (ray : Ray) (depth : ℕ)
    (light_color contribution : Vec3) (pos : ℕ) : Option (Vec3 × ℕ) :=
  RayTracing.colorAux ctx scene hitF rnd (scene.max_ray_bounces + 1 - depth)
    ray depth light_color contribution pos

/-- `RayTracing::color_diffuse` (`ray_tracing.rs:80-158`): the diffuse
variant, fuelled like `colorAux`; its refraction branch recurses through
`color`. -/
def RayTracing.color_diffuseAux {Obj : Type} (ctx : Ctx) (scene : Scene Obj)
    (hitF : Ray → Obj → Option RayHit) (rnd : ℕ → ℚ) :
    ℕ → Ray → ℕ → Vec3 → Vec3 → ℕ → Option (Vec3 × ℕ)
  | 0, _, _, light_color, _, pos => some (light_color, pos)
  | fuel + 1, ray, depth, light_color, contribution, pos =>
    if scene.max_ray_bounces ≤ depth then some (light_color, pos)
    else
      match trace_ray hitF scene.objects ray with
      | some (hit, _obj_index) =>
        match scene.materials.get? hit.material_index with
        | none => none
        | some material =>
          match material.kind with
          | MaterialType.Reflective roughness =>
            let albedoRes : Option Vec3 :=
              match material.texture with
              | some tidx => (scene.textures.get? tidx).map
                  (fun tex => tex.from_uv hit.u hit.v)
              | none => some material.albedo
            match albedoRes with
            | none => none
            | some albedo =>
              let p_light := light_color + material.emission_power • albedo
              let rp := ray.reflection_ray ctx rnd hit roughness pos
                scene.diffuse scene.enable_accumulation
              RayTracing.color_diffuseAux ctx scene hitF rnd fuel rp.1
                (depth + 1) p_light (contribution * albedo) rp.2
          | MaterialType.Refractive transparency refraction_index
              reflectivity =>
            let albedo := material.albedo
            let kr := material.fresnel ctx ray.direction hit.normal
              refraction_index reflectivity
            let refr : Option (Vec3 × ℕ) :=
              match ray.refraction_ray ctx hit refraction_index with
              | some refraction_r =>
                RayTracing.color ctx scene hitF rnd refraction_r (depth + 1)
                  light_color (contribution * albedo) pos
              | none => some (Vec3.ZERO, pos)
            match refr with
            | none => none
            | some (refraction_color, pos1) =>
              let reflection_r : Ray :=
                ⟨hit.point + EPSILON • hit.normal, ray.reflect hit.normal⟩
              let p_light := light_color + material.emission_power • albedo
              match RayTracing.color_diffuseAux ctx scene hitF rnd fuel
                  reflection_r (depth + 1) p_light (contribution * albedo)
                  pos1 with
              | none => none
              | some (reflection_color, pos2) =>
                some (reflection_color * kr +
                  refraction_color * (1 - kr) * transparency, pos2)
      | none => some (light_color + scene.ambient_color * contribution, pos)

/-- `RayTracing::color_diffuse` at depth `depth`. -/
def RayTracing.color_diffuse {Obj : Type} (ctx : Ctx) (scene : Scene Obj)
    (hitF : Ray → Obj → Option RayHit) (rnd : ℕ → ℚ) (ray : Ray) (depth : ℕ)
    (light_color contribution : Vec3) (pos : ℕ) : Option (Vec3 × ℕ) :=
  RayTracing.color_diffuseAux ctx scene hitF rnd
    (scene.max_ray_bounces + 1 - depth) ray depth light_color contribution pos

/-- `RayTracing::albedo` (`ray_tracing.rs:17-26`): the top-level trace entry
with accumulated light `Vec3::ZERO` and contribution `Vec3::ONE`. -/
def RayTracing.albedo {Obj : Type} (ctx : Ctx) (scene : Scene Obj)
    (hitF : Ray → Obj → Option RayHit) (rnd : ℕ → ℚ) (ray : Ray) (pos : ℕ) :
    Option (Vec3 × ℕ) :=
  let light := Vec3.ZERO
  let contribution := Vec3.ONE
  if scene.diffuse then
    RayTracing.color_diffuse ctx scene hitF rnd ray 0 light contribution pos
  else
    RayTracing.color ctx scene hitF rnd ray 0 light contribution pos

/-- `ray_marching.rs`: `MAX_STEPS`. -/
def MAX_STEPS : ℕ := 255

/-- `ray_marching.rs`: `MAX_DISTANCE`. -/
def MAX_DISTANCE : ℚ := 40

/-- `ray_marching.rs`: `HIT_PRECISION`. -/
def HIT_PRECISION : ℚ := 1 / 1000

/-- The loop body of `RayMarching::march_ray` (`ray_marching.rs:186-201`),
with the remaining iteration count as fuel.  `sdfsO t` is `self.sdfs(ray, t)`
— the scene's minimum-distance evaluation at parameter `t` along the fixed
ray, abstracted as an oracle exactly as the marcher consumes it. -/
def marchAux (sdfsO : ℚ → ℕ × RayMarchingHit) :
    ℕ → ℚ → Option (ℕ × RayMarchingHit)
  | 0, _ => none
  | fuel + 1, t =>
    if MAX_DISTANCE < t then none
    else
      let r := sdfsO t
      let t2 := t + r.2.distance
      if r.2.distance < HIT_PRECISION then
        some (r.1, ⟨t2, r.2.albedo, r.2.transformed_ray⟩)
      else marchAux sdfsO fuel t2

/-- `RayMarching::march_ray` (`ray_marching.rs:181-203`): start at `t = 0`
with `MAX_STEPS` iterations available. -/
def march_ray (sdfsO : ℚ → ℕ × RayMarchingHit) : Option (ℕ × RayMarchingHit) :=
  marchAux sdfsO MAX_STEPS 0

/-- The sequence of accumulated `t` values the march visits:
`t₀ = start`, `tₖ₊₁ = tₖ + dist tₖ`. -/
def tSeq (dist : ℚ → ℚ) (start : ℚ) : ℕ → ℚ
  | 0 => start
  | k + 1 => tSeq dist start k + dist (tSeq dist start k)

/-- `ray.rs`: the ingredients of `Ray::sphere_intersection`
(`ray.rs:487-536`), named for the statements about them: the quadratic
coefficient `a`. -/
def sphere_a (self : Ray) (inv_transform : Mat4) : ℚ :=
  let ray_dir := inv_transform.transformDir self.direction
  Vec3.dot ray_dir ray_dir

/-- The quadratic coefficient `b` of `Ray::sphere_intersection`. -/
def sphere_b (self : Ray) (inv_transform : Mat4) : ℚ :=
  2 * Vec3.dot (inv_transform.transformPoint self.origin)
    (inv_transform.transformDir self.direction)

/-- The quadratic coefficient `c` of `Ray::sphere_intersection`. -/
def sphere_c (self : Ray) (inv_transform : Mat4) (radius : ℚ) : ℚ :=
  let ray_origin := inv_transform.transformPoint self.origin
  Vec3.dot ray_origin ray_origin - radius * radius

/-- The discriminant of `Ray::sphere_intersection`. -/
def sphere_disc (self : Ray) (inv_transform : Mat4) (radius : ℚ) : ℚ :=
  sphere_b self inv_transform * sphere_b self inv_transform -
    4 * sphere_a self inv_transform * sphere_c self inv_transform radius

/-- `ray.rs`: `Ray::sphere_intersection` — move the ray to object space,
solve the quadratic, and when the discriminant is non-negative return the
root `t1 = (-b - √disc) / (2a)` as the hit distance, with no sign check. -/
def Ray.sphere_intersection (ctx : Ctx) (self : Ray) (position : Vec3)
    (transform inv_transform : Mat4) (radius : ℚ) (material_index : ℕ) :
    Option RayHit :=
  let a := sphere_a self inv_transform
  let b := sphere_b self inv_transform
  let c := sphere_c self inv_transform radius
  let disc := b * b - 4 * a * c
  if disc < 0 then none
  else
    let t1 := (-b - ctx.sqrt disc) / (2 * a)
    let hit_point := self.origin + self.direction * t1
    let n := vnormalize ctx (hit_point - position)
    let normal := transform.transformDir n
    some ⟨t1, hit_point, normal, material_index, 0, 0⟩

/-- `renderer.rs`: the fields of `Renderer` that drive the early-exit
decision, plus `updated` from the render call. -/
structure RenderParams where
  frame_index : ℕ
  max_frames_rendering : ℕ
  enable_accumulation : Bool
deriving DecidableEq, Repr

/-- `renderer.rs:93-96`: `updated` resets `frame_index` to 1. -/
def render_reset (updated : Bool) (r : RenderParams) : RenderParams :=
  if updated then { r with frame_index := 1 } else r

/-- `renderer.rs:98-102`: the early-exit test
`frame_index > max_frames_rendering || (frame_index > 1 && !enable_accumulation)`. -/
def render_early_exit (r : RenderParams) : Bool :=
  decide (r.max_frames_rendering < r.frame_index) ||
    (decide (1 < r.frame_index) && !r.enable_accumulation)

/-- Whether `Renderer::render` runs a full render pass: after the `updated`
reset, the pass runs exactly when the early-exit test fails. -/
def render_executes (updated : Bool) (r : RenderParams) : Bool :=
  !(render_early_exit (render_reset updated r))

/-- Follows the claim's words, for comparison with `render_early_exit`:
early exit once `frame_index > max_frames`, or once `frame_index > 1` while
accumulation is disabled and the scene is not in diffuse mode. -/
def claim_early_exit (r : RenderParams) (scene_diffuse : Bool) : Bool :=
  decide (r.max_frames_rendering < r.frame_index) ||
    (decide (1 < r.frame_index) && !r.enable_accumulation && !scene_diffuse)

/-- A context whose `sqrt` is constantly `1` and whose `powf` returns its
base, used by the concrete evaluations. -/
def ctxOne : Ctx := ⟨fun _ => 1, fun a _ => a⟩

/-- A context whose `sqrt` is constantly `2` (exact for the discriminant `4`
arising in the concrete sphere evaluation). -/
def ctxTwo : Ctx := ⟨fun _ => 2, fun a _ => a⟩

/-- The all-zero random tape. -/
def tape0 : ℕ → ℚ := fun _ => 0

/-- A per-object intersection oracle that never hits. -/
def hitNone : Ray → ℕ → Option RayHit := fun _ _ => none

/-- A concrete primary ray. -/
def ray0 : Ray := ⟨⟨0, 0, 3⟩, ⟨0, 0, -1⟩⟩

/-- A concrete reflective material: full ambience, no diffuse or specular
term. -/
def matBase : Material := ⟨1, 0, 0, 5, ⟨1, 1, 1⟩, none, MaterialType.Reflective 1, 0⟩

/-- An empty scene with a non-zero ambient color and `max_ray_bounces = 0`. -/
def cexC1scene : Scene ℕ :=
  ⟨[], [], [], [], ⟨1, 0, 0⟩, false, false, false, 0⟩

/-- An empty scene with a non-zero ambient color and `max_ray_bounces = 5`. -/
def witC1scene : Scene ℕ :=
  ⟨[], [], [], [], ⟨1, 0, 0⟩, false, false, false, 5⟩

/-- Two objects, one positional light two units above the origin, shadow
casting on. -/
def cexC8scene : Scene ℕ :=
  ⟨[0, 1], [], [], [Light.Positional ⟨1, 1, 1⟩ ⟨0, 2, 0⟩ 1], Vec3.ZERO,
   false, false, true, 5⟩

/-- Intersections for `cexC8scene`: object `1` is hit at distance `10` by
every ray (far beyond the light), object `0` never. -/
def cexC8hitF : Ray → ℕ → Option RayHit :=
  fun _ o => if o = 1 then some ⟨10, ⟨0, 0, 0⟩, ⟨0, 1, 0⟩, 0, 0, 0⟩ else none

/-- The surface point being shaded in the C8 evaluation. -/
def cexC8hit : RayHit := ⟨5 / 2, ⟨0, 0, 0⟩, ⟨0, 1, 0⟩, 0, 0, 0⟩

/-- A 1×1 texture of exactly three bytes. -/
def cexC9tex : Texture := ⟨1, 1, [255, 255, 255]⟩

/-- An intersection oracle hitting object `o` at distance `o + 1`. -/
def witC2hitF : Ray → ℕ → Option RayHit :=
  fun _ o => some ⟨(o : ℚ) + 1, Vec3.ZERO, Vec3.ZERO, 0, 0, 0⟩

/-- A ray starting at the center of the unit sphere. -/
def rayAtCenter : Ray := ⟨⟨0, 0, 0⟩, ⟨0, 0, 1⟩⟩

end RT

namespace RT

theorem Vec3.add_def (a b : Vec3) :
    a + b = ⟨a.x + b.x, a.y + b.y, a.z + b.z⟩ := rfl

theorem Vec3.smul_def (a : ℚ) (v : Vec3) :
    a • v = ⟨a * v.x, a * v.y, a * v.z⟩ := rfl

theorem Vec3.zero_add (v : Vec3) : Vec3.ZERO + v = v := by
  cases v; simp [Vec3.ZERO, Vec3.add_def]

theorem Vec3.mul_one (v : Vec3) : v * Vec3.ONE = v := by
  cases v; show Vec3.mk _ _ _ = _; simp [Vec3.ONE]

theorem Vec3.one_smul (v : Vec3) : (1 : ℚ) • v = v := by
  cases v; simp [Vec3.smul_def]

theorem Vec3.smul_smul (a b : ℚ) (v : Vec3) : a • (b • v) = (a * b) • v := by
  cases v; simp [Vec3.smul_def, mul_assoc]

/-- Helper for C4: the smooth minimum with blend factor `7/10` never exceeds
the sharp minimum. -/
theorem smooth_union_le_min (d1 d2 : ℚ) :
    smooth_union d1 d2 (7 / 10) ≤ min d1 d2 := by
  unfold smooth_union mix rclamp
  have hgval : 1 / 2 + 1 / 2 * (d2 - d1) / (7 / 10) = 1 / 2 + 5 / 7 * (d2 - d1) := by
    ring
  rw [hgval]
  rcases le_total (1 / 2 + 5 / 7 * (d2 - d1)) 0 with h0 | h0
  · rw [max_eq_right h0, min_eq_left (by norm_num : (0 : ℚ) ≤ 1)]
    have hs : d2 - d1 ≤ -(7 / 10) := by linarith
    simp only [le_min_iff]
    constructor <;> nlinarith
  · rw [max_eq_left h0]
    rcases le_total 1 (1 / 2 + 5 / 7 * (d2 - d1)) with h1 | h1
    · rw [min_eq_right h1]
      have hs : 7 / 10 ≤ d2 - d1 := by linarith
      simp only [le_min_iff]
      constructor <;> nlinarith
    · rw [min_eq_left h1]
      have hs1 : -(7 / 10) ≤ d2 - d1 := by linarith
      have hs2 : d2 - d1 ≤ 7 / 10 := by linarith
      simp only [le_min_iff]
      constructor <;> nlinarith

/-- Helper: the scan loop never turns a `some` accumulator into `none`. -/
theorem traceLoop_none_acc {Obj : Type} (hf : Obj → Option RayHit) :
    ∀ (rest : List Obj) (idx : ℕ) (closest : ℚ) (acc : Option (RayHit × ℕ)),
      traceLoop hf rest idx closest acc = none → acc = none := by
  intro rest
  induction rest with
  | nil => intro idx closest acc h; exact h
  | cons o rest ih =>
    intro idx closest acc h
    rcases hho : hf o with _ | t
    · simp only [traceLoop, hho] at h
      exact ih _ _ _ h
    · simp only [traceLoop, hho] at h
      by_cases hc : 0 < t.distance ∧ t.distance < closest
      · rw [if_pos hc] at h
        exact absurd (ih _ _ _ h) (by simp)
      · rw [if_neg hc] at h
        exact ih _ _ _ h

/-- Helper: the scan loop computes the first-minimum search `bestBelow`,
falling back to the accumulator when nothing qualifies. -/
theorem traceLoop_eq_bestBelow {Obj : Type} (hf : Obj → Option RayHit) :
    ∀ (rest : List Obj) (idx : ℕ) (closest : ℚ) (acc : Option (RayHit × ℕ)),
      traceLoop hf rest idx closest acc =
        match bestBelow hf rest idx closest with
        | some r => some r
        | none => acc := by
  intro rest
  induction rest with
  | nil => intro idx closest acc; rfl
  | cons o rest ih =>
    intro idx closest acc
    rcases hho : hf o with _ | t
    · simp only [traceLoop, bestBelow, hho]
      exact ih _ _ _
    · simp only [traceLoop, bestBelow, hho]
      by_cases hc : 0 < t.distance ∧ t.distance < closest
      · rw [if_pos hc, if_pos hc, ih]
        rcases hb : bestBelow hf rest (idx + 1) t.distance with _ | r <;> simp [hb]
      · rw [if_neg hc, if_neg hc]
        exact ih _ _ _

/-- Helper: `bestBelow` returns nothing exactly when no scanned object has a
hit with distance in `(0, closest)`. -/
theorem bestBelow_none_iff {Obj : Type} (hf : Obj → Option RayHit) :
    ∀ (rest : List Obj) (idx : ℕ) (closest : ℚ),
      bestBelow hf rest idx closest = none ↔
        ∀ (j : ℕ) (o : Obj) (rh : RayHit), rest.get? j = some o →
          hf o = some rh → ¬(0 < rh.distance ∧ rh.distance < closest) := by
  intro rest
  induction rest with
  | nil =>
    intro idx closest
    simp [bestBelow]
  | cons o rest ih =>
    intro idx closest
    rcases hho : hf o with _ | t
    · simp only [bestBelow, hho]
      rw [ih]
      constructor
      · intro h j o2 rh hj hrh
        cases j with
        | zero =>
          rw [List.get?_cons_zero] at hj
          cases hj
          rw [hho] at hrh
          cases hrh
        | succ j =>
          rw [List.get?_cons_succ] at hj
          exact h j o2 rh hj hrh
      · intro h j o2 rh hj hrh
        exact h (j + 1) o2 rh (by rw [List.get?_cons_succ]; exact hj) hrh
    · by_cases hc : 0 < t.distance ∧ t.distance < closest
      · simp only [bestBelow, hho, if_pos hc]
        constructor
        · intro h
          rcases hb : bestBelow hf rest (idx + 1) t.distance with _ | r <;>
            rw [hb] at h <;> cases h
        · intro h
          exact absurd hc (h 0 o t List.get?_cons_zero hho)
      · simp only [bestBelow, hho, if_neg hc]
        rw [ih]
        constructor
        · intro h j o2 rh hj hrh
          cases j with
          | zero =>
            rw [List.get?_cons_zero] at hj
            cases hj
            rw [hho] at hrh
            cases hrh
            exact hc
          | succ j =>
            rw [List.get?_cons_succ] at hj
            exact h j o2 rh hj hrh
        · intro h j o2 rh hj hrh
          exact h (j + 1) o2 rh (by rw [List.get?_cons_succ]; exact hj) hrh

/-- Helper: what a successful `bestBelow` guarantees — a positive distance
below the threshold, a genuine hit at the returned index, and first-minimum
optimality among all scanned candidates below the threshold. -/
theorem bestBelow_some_spec {Obj : Type} (hf : Obj → Option RayHit) :
    ∀ (rest : List Obj) (idx : ℕ) (closest : ℚ) (rh : RayHit) (i : ℕ),
      bestBelow hf rest idx closest = some (rh, i) →
      0 < rh.distance ∧ rh.distance < closest ∧
      ∃ j, i = idx + j ∧ (∃ o, rest.get? j = some o ∧ hf o = some rh) ∧
        ∀ (j2 : ℕ) (o2 : Obj) (rh2 : RayHit), rest.get? j2 = some o2 →
          hf o2 = some rh2 → 0 < rh2.distance → rh2.distance < closest →
          rh.distance ≤ rh2.distance ∧ (j2 < j → rh.distance < rh2.distance) := by
  intro rest
  induction rest with
  | nil => intro idx closest rh i h; cases h
  | cons o rest ih =>
    intro idx closest rh i hsome
    rcases hho : hf o with _ | t
    · simp only [bestBelow, hho] at hsome
      obtain ⟨hpos, hlt, j, hij, ⟨o2, hget, hfo⟩, hmin⟩ := ih _ _ _ _ hsome
      refine ⟨hpos, hlt, j + 1, by omega, ⟨o2, by rw [List.get?_cons_succ]; exact hget, hfo⟩, ?_⟩
      intro j2 o3 rh2 hj2 hf2 hpos2 hlt2
      cases j2 with
      | zero =>
        rw [List.get?_cons_zero] at hj2
        cases hj2
        rw [hho] at hf2
        cases hf2
      | succ j2 =>
        rw [List.get?_cons_succ] at hj2
        obtain ⟨hle, hstrict⟩ := hmin j2 o3 rh2 hj2 hf2 hpos2 hlt2
        exact ⟨hle, fun hlt3 => hstrict (by omega)⟩
    · by_cases hc : 0 < t.distance ∧ t.distance < closest
      · simp only [bestBelow, hho, if_pos hc] at hsome
        rcases hb : bestBelow hf rest (idx + 1) t.distance with _ | r
        · rw [hb] at hsome
          cases hsome
          refine ⟨hc.1, hc.2, 0, by omega, ⟨o, List.get?_cons_zero, hho⟩, ?_⟩
          intro j2 o3 rh2 hj2 hf2 hpos2 hlt2
          cases j2 with
          | zero =>
            rw [List.get?_cons_zero] at hj2
            cases hj2
            rw [hho] at hf2
            cases hf2
            exact ⟨le_refl _, by omega⟩
          | succ j2 =>
            rw [List.get?_cons_succ] at hj2
            have := (bestBelow_none_iff hf rest (idx + 1) rh.distance).mp hb j2 o3 rh2 hj2 hf2
            have hle : rh.distance ≤ rh2.distance := by
              by_contra hnot
              exact this ⟨hpos2, by linarith⟩
            exact ⟨hle, by omega⟩
        · rw [hb] at hsome
          cases hsome
          obtain ⟨hpos, hlt, j, hij, ⟨o2, hget, hfo⟩, hmin⟩ := ih _ _ _ _ hb
          refine ⟨hpos, lt_trans hlt hc.2, j + 1, by omega,
            ⟨o2, by rw [List.get?_cons_succ]; exact hget, hfo⟩, ?_⟩
          intro j2 o3 rh2 hj2 hf2 hpos2 hlt2
          cases j2 with
          | zero =>
            rw [List.get?_cons_zero] at hj2
            cases hj2
            rw [hho] at hf2
            cases hf2
            exact ⟨le_of_lt hlt, fun _ => hlt⟩
          | succ j2 =>
            rw [List.get?_cons_succ] at hj2
            rcases lt_or_le rh2.distance t.distance with hsmall | hbig
            · obtain ⟨hle, hstrict⟩ := hmin j2 o3 rh2 hj2 hf2 hpos2 hsmall
              exact ⟨hle, fun hlt3 => hstrict (by omega)⟩
            · exact ⟨le_of_lt (lt_of_lt_of_le hlt hbig),
                fun _ => lt_of_lt_of_le hlt hbig⟩
      · simp only [bestBelow, hho, if_neg hc] at hsome
        obtain ⟨hpos, hlt, j, hij, ⟨o2, hget, hfo⟩, hmin⟩ := ih _ _ _ _ hsome
        refine ⟨hpos, hlt, j + 1, by omega,
          ⟨o2, by rw [List.get?_cons_succ]; exact hget, hfo⟩, ?_⟩
        intro j2 o3 rh2 hj2 hf2 hpos2 hlt2
        cases j2 with
        | zero =>
          rw [List.get?_cons_zero] at hj2
          cases hj2
          rw [hho] at hf2
          cases hf2
          exact absurd ⟨hpos2, hlt2⟩ hc
        | succ j2 =>
          rw [List.get?_cons_succ] at hj2
          obtain ⟨hle, hstrict⟩ := hmin j2 o3 rh2 hj2 hf2 hpos2 hlt2
          exact ⟨hle, fun hlt3 => hstrict (by omega)⟩

/-- Helper: what a successful `trace_ray` guarantees. -/
theorem trace_ray_some_spec {Obj : Type} (hitF : Ray → Obj → Option RayHit)
    (objects : List Obj) (ray : Ray) (rh : RayHit) (idx : ℕ)
    (h : trace_ray hitF objects ray = some (rh, idx)) :
    0 < rh.distance ∧ rh.distance < fMAX ∧
    (∃ o, objects.get? idx = some o ∧ hitF ray o = some rh) ∧
    ∀ (j2 : ℕ) (o2 : Obj) (rh2 : RayHit), objects.get? j2 = some o2 →
      hitF ray o2 = some rh2 → 0 < rh2.distance → rh2.distance < fMAX →
      rh.distance ≤ rh2.distance ∧ (j2 < idx → rh.distance < rh2.distance) := by
  rw [trace_ray] at h
  by_cases he : objects.isEmpty
  · rw [if_pos he] at h; cases h
  · rw [if_neg he, traceLoop_eq_bestBelow] at h
    rcases hb : bestBelow (hitF ray) objects 0 fMAX with _ | r
    · rw [hb] at h; cases h
    · rw [hb] at h
      cases h
      obtain ⟨hpos, hlt, j, hij, horigin, hmin⟩ := bestBelow_some_spec _ _ _ _ _ _ hb
      have hj : idx = j := by omega
      subst hj
      exact ⟨hpos, hlt, horigin, hmin⟩

/-- Helper: `trace_ray` misses exactly when no object has a hit with
distance in `(0, f32::MAX)`. -/
theorem trace_ray_none_iff {Obj : Type} (hitF : Ray → Obj → Option RayHit)
    (objects : List Obj) (ray : Ray) :
    trace_ray hitF objects ray = none ↔
      ∀ (j : ℕ) (o : Obj) (rh : RayHit), objects.get? j = some o →
        hitF ray o = some rh → ¬(0 < rh.distance ∧ rh.distance < fMAX) := by
  rw [trace_ray]
  by_cases he : objects.isEmpty
  · rw [if_pos he]
    have : objects = [] := List.isEmpty_iff.mp he
    subst this
    simp
  · rw [if_neg he, traceLoop_eq_bestBelow]
    rcases hb : bestBelow (hitF ray) objects 0 fMAX with _ | r
    · simp only [hb]
      exact ⟨fun _ => (bestBelow_none_iff _ _ _ _).mp hb, fun _ => by trivial⟩
    · simp only [hb]
      constructor
      · intro h; cases h
      · intro h
        rcases r with ⟨rh, i⟩
        obtain ⟨hpos2, hlt2, j, hij, ⟨o, hget, hfo⟩, _⟩ :=
          bestBelow_some_spec (hitF ray) objects 0 fMAX rh i hb
        exact absurd ⟨hpos2, hlt2⟩ (h _ _ _ hget hfo)

/-- C2: for every ray and scene (with every hit distance below `f32::MAX`,
the scan's initial threshold), `trace_ray` returns the hit whose distance is
the smallest value strictly greater than 0 among all per-object intersection
results; hits with distance ≤ 0 are never returned; and on ties the object
earliest in iteration order wins. -/
theorem c2_trace_ray_nearest {Obj : Type} (hitF : Ray → Obj → Option RayHit)
    (objects : List Obj) (ray : Ray)
    (hmax : ∀ o ∈ objects, ∀ rh, hitF ray o = some rh → rh.distance < fMAX) :
    (∀ (rh : RayHit) (idx : ℕ), trace_ray hitF objects ray = some (rh, idx) →
      (∃ o, objects.get? idx = some o ∧ hitF ray o = some rh) ∧
      0 < rh.distance ∧
      ∀ (j : ℕ) (o2 : Obj) (rh2 : RayHit), objects.get? j = some o2 →
        hitF ray o2 = some rh2 → 0 < rh2.distance →
        rh.distance ≤ rh2.distance ∧ (j < idx → rh.distance < rh2.distance)) ∧
    (trace_ray hitF objects ray = none ↔
      ∀ (j : ℕ) (o : Obj) (rh : RayHit), objects.get? j = some o →
        hitF ray o = some rh → rh.distance ≤ 0) := by
  constructor
  · intro rh idx h
    obtain ⟨hpos, _, horigin, hmin⟩ := trace_ray_some_spec hitF objects ray rh idx h
    refine ⟨horigin, hpos, ?_⟩
    intro j o2 rh2 hj hfo hpos2
    exact hmin j o2 rh2 hj hfo hpos2 (hmax o2 (List.get?_mem hj) rh2 hfo)
  · rw [trace_ray_none_iff]
    constructor
    · intro h j o rh hj hfo
      by_contra hpos
      push_neg at hpos
      exact h j o rh hj hfo ⟨hpos, hmax o (List.get?_mem hj) rh hfo⟩
    · intro h j o rh hj hfo hcond
      exact absurd (h j o rh hj hfo) (not_le.mpr hcond.1)

/-- Witness for C2 at a concrete scene of two objects hit at distances 1
and 2: the hypothesis that all hit distances stay below `f32::MAX` is
discharged by evaluation. -/
theorem c2_trace_ray_nearest_witness :
    trace_ray witC2hitF [0, 1] ray0 = none ↔
      ∀ (j : ℕ) (o : ℕ) (rh : RayHit), [0, 1].get? j = some o →
        witC2hitF ray0 o = some rh → rh.distance ≤ 0 :=
  (c2_trace_ray_nearest witC2hitF [0, 1] ray0 (by
    intro o ho rh hrh
    fin_cases ho <;>
      simp only [witC2hitF, Option.some.injEq] at hrh <;>
      rw [← hrh] <;> norm_num [fMAX])).2

/-- Helper for C3: shifting the start of the visited-`t` sequence by one
step. -/
theorem tSeq_shift (dist : ℚ → ℚ) (t0 : ℚ) :
    ∀ k, tSeq dist (t0 + dist t0) k = tSeq dist t0 (k + 1) := by
  intro k
  induction k with
  | zero => rfl
  | succ k ih =>
    show tSeq dist (t0 + dist t0) k + dist (tSeq dist (t0 + dist t0) k) = _
    rw [ih]
    rfl

/-- Helper for C3: the fuelled march succeeds exactly when some step within
the fuel keeps every visited `t` within `MAX_DISTANCE` and sees a scene
distance below `HIT_PRECISION`. -/
theorem marchAux_isSome_iff (sdfsO : ℚ → ℕ × RayMarchingHit) :
    ∀ (fuel : ℕ) (t0 : ℚ),
      (marchAux sdfsO fuel t0).isSome = true ↔
        ∃ n, n < fuel ∧
          (∀ k, k ≤ n → tSeq (fun t => (sdfsO t).2.distance) t0 k ≤ MAX_DISTANCE) ∧
          (sdfsO (tSeq (fun t => (sdfsO t).2.distance) t0 n)).2.distance < HIT_PRECISION := by
  intro fuel
  induction fuel with
  | zero =>
    intro t0
    simp [marchAux]
  | succ fuel ih =>
    intro t0
    rw [marchAux]
    by_cases hfar : MAX_DISTANCE < t0
    · rw [if_pos hfar]
      simp only [Option.isSome_none, Bool.false_eq_true, false_iff]
      rintro ⟨n, _, hall, _⟩
      exact absurd (hall 0 (Nat.zero_le n)) (not_le.mpr hfar)
    · rw [if_neg hfar]
      by_cases hhit : (sdfsO t0).2.distance < HIT_PRECISION
      · rw [if_pos hhit]
        simp only [Option.isSome_some, true_iff]
        exact ⟨0, Nat.succ_pos _, fun k hk => by
          cases Nat.le_zero.mp hk; exact not_lt.mp hfar, hhit⟩
      · rw [if_neg hhit]
        rw [ih]
        constructor
        · rintro ⟨n, hn, hall, hend⟩
          refine ⟨n + 1, by omega, ?_, ?_⟩
          · intro k hk
            cases k with
            | zero => exact not_lt.mp hfar
            | succ k => rw [← tSeq_shift]; exact hall k (by omega)
          · rw [← tSeq_shift]; exact hend
        · rintro ⟨n, hn, hall, hend⟩
          cases n with
          | zero => exact absurd hend hhit
          | succ n =>
            refine ⟨n, by omega, ?_, ?_⟩
            · intro k hk
              rw [tSeq_shift]; exact hall (k + 1) (by omega)
            · rw [tSeq_shift]; exact hend

/-- C3: the march terminates within `MAX_STEPS` (255) iterations by
construction, and returns a hit exactly when, at some step of the loop with
every accumulated `t` so far not exceeding `MAX_DISTANCE` (40), the scene's
minimum signed distance (`sdfs`) falls below `HIT_PRECISION` (0.001); it
returns `none` otherwise. -/
theorem c3_march_ray_hit_iff (sdfsO : ℚ → ℕ × RayMarchingHit) :
    (march_ray sdfsO).isSome = true ↔
      ∃ n, n < MAX_STEPS ∧
        (∀ k, k ≤ n → tSeq (fun t => (sdfsO t).2.distance) 0 k ≤ MAX_DISTANCE) ∧
        (sdfsO (tSeq (fun t => (sdfsO t).2.distance) 0 n)).2.distance < HIT_PRECISION :=
  marchAux_isSome_iff sdfsO MAX_STEPS 0

/-- C4: the smooth-union combined distance (`h = clamp(0.5+0.5(d2-d1)/k,0,1)`,
`d = mix(d2,d1,h) - k·h·(1-h)`, blend factor `k = 0.7`) never exceeds the
sharp union `min(d1, d2)` — so `d ≤ min(d1,d2) + ε` holds for every ε ≥ 0. -/
theorem c4_smooth_union_le_sharp (h1 h2 : RayMarchingHit) :
    (Union_sdf h1 h2).distance ≤ min h1.distance h2.distance := by
  simp only [Union_sdf]
  split_ifs <;> exact smooth_union_le_min _ _

/-- C5: a `Substraction` node combines its children's signed distances as
`max(d1, -d2)` with no smoothing, reports the first child's material albedo,
and propagates the second child's locally-transformed ray. -/
theorem c5_substraction_sdf (s : Substraction) (childSdf : ℕ → RayMarchingHit)
    (matIndexOf : ℕ → ℕ) (materials : List Material) :
    s.sdf childSdf matIndexOf materials =
      (materials.get? (matIndexOf s.first)).map (fun m =>
        ⟨max (childSdf s.first).distance (-(childSdf s.second).distance),
         m.albedo, (childSdf s.second).transformed_ray⟩) := by
  simp only [Substraction.sdf]
  cases h : materials.get? (matIndexOf s.first) <;> simp [h, max_comm]

/-- C6: `refraction_ray` returns `none` exactly when the discriminant
`k = 1 - η²(1-c1²)` is negative, `η` being selected by the sign of
`direction·normal`; when `k ≥ 0` a refraction ray is always returned. -/
theorem c6_refraction_none_iff (ctx : Ctx) (self : Ray) (hit : RayHit)
    (ri : ℚ) :
    (self.refraction_ray ctx hit ri = none ↔
      refraction_discriminant self hit ri < 0) ∧
    ((self.refraction_ray ctx hit ri).isSome = true ↔
      0 ≤ refraction_discriminant self hit ri) := by
  have h1 : self.refraction_ray ctx hit ri = none ↔
      refraction_discriminant self hit ri < 0 := by
    simp only [Ray.refraction_ray, refraction_discriminant]
    by_cases hc : Vec3.dot self.direction hit.normal < 0
    · simp only [if_pos hc]
      have heq : (1 : ℚ) - 1 / ri * (1 / ri) *
          (1 - -Vec3.dot self.direction hit.normal *
            -Vec3.dot self.direction hit.normal) =
          1 - 1 / ri * (1 / ri) *
          (1 - Vec3.dot self.direction hit.normal *
            Vec3.dot self.direction hit.normal) := by ring
      rw [heq]
      split_ifs with hk
      · exact iff_of_true rfl hk
      · exact iff_of_false (by simp) hk
    · simp only [if_neg hc]
      split_ifs with hk
      · exact iff_of_true rfl hk
      · exact iff_of_false (by simp) hk
  refine ⟨h1, ?_⟩
  rcases hres : self.refraction_ray ctx hit ri with _ | r
  · simp only [Option.isSome_none, Bool.false_eq_true, false_iff, not_le]
    exact h1.mp hres
  · simp only [Option.isSome_some, true_iff]
    by_contra hneg
    push_neg at hneg
    rw [h1.mpr hneg] at hres
    cases hres

/-- C7 amended: after the `updated` reset, a full render pass executes
exactly when `frame_index ≤ max_frames_rendering` and (`frame_index ≤ 1` or
accumulation is enabled); the scene's diffuse mode plays no part. -/
theorem c7_render_executes_iff (updated : Bool) (r : RenderParams) :
    render_executes updated r = true ↔
      ((if updated then 1 else r.frame_index) ≤ r.max_frames_rendering ∧
       ((if updated then 1 else r.frame_index) ≤ 1 ∨
        r.enable_accumulation = true)) := by
  cases updated <;> cases hacc : r.enable_accumulation <;>
    simp [render_executes, render_early_exit, render_reset, hacc] <;> omega

/-- C7 counterexample: at `frame_index = 2`, `max_frames = 1000`,
accumulation disabled but the scene in diffuse mode, the code exits early
while the claim predicts a full render pass. -/
theorem c7_diffuse_ignored_cex :
    render_early_exit ⟨2, 1000, false⟩ = true ∧
    claim_early_exit ⟨2, 1000, false⟩ true = false := by
  exact ⟨by decide, by decide⟩

/-- Helper for C9: reading a pixel succeeds exactly when the byte offset
(plus 2) is inside the buffer. -/
theorem pixel_isSome_iff (t : Texture) (x y : ℕ) :
    (t.pixel x y).isSome = true ↔ t.byte_pos x y + 2 < t.bytes.length := by
  simp only [Texture.pixel, Texture.byte_pos]
  generalize (y * 3 % 2 ^ 32 * t.width % 2 ^ 32 + x * 3 % 2 ^ 32) % 2 ^ 32 = pos
  rcases h2 : t.bytes[pos + 2]? with _ | b2
  · have hlen := List.getElem?_eq_none_iff.mp h2
    constructor
    · intro hs
      exfalso
      rcases h0 : t.bytes[pos]? with _ | b0 <;>
        rcases h1 : t.bytes[pos + 1]? with _ | b1 <;>
          simp at hs
    · intro hlt
      exact absurd hlt (not_lt.mpr hlen)
  · have hlt : pos + 2 < t.bytes.length := (List.getElem?_eq_some.mp h2).1
    obtain ⟨b0, h0⟩ : ∃ b0, t.bytes[pos]? = some b0 :=
      ⟨_, List.getElem?_eq_getElem (by omega)⟩
    obtain ⟨b1, h1⟩ : ∃ b1, t.bytes[pos + 1]? = some b1 :=
      ⟨_, List.getElem?_eq_getElem (by omega)⟩
    rw [h0, h1]
    simp [hlt]

/-- C9 amended: `baricentric_pixel` saturates the scaled coordinates with
Rust's `as u32` cast (everything ≤ 0 collapses to texel column 0 — no
wraparound), and sampling succeeds exactly when the computed byte offset
(plus 2) lies inside the byte buffer; out-of-range coordinates can
therefore fail. -/
theorem c9_sampling_saturates (t : Texture) (u v : ℚ) :
    (u ≤ 0 → t.baricentric_pixel u v =
      t.pixel 0 (f32_as_u32 ((t.height : ℚ) * v))) ∧
    ((t.baricentric_pixel u v).isSome = true ↔
      t.byte_pos (f32_as_u32 ((t.width : ℚ) * u))
        (f32_as_u32 ((t.height : ℚ) * v)) + 2 < t.bytes.length) := by
  constructor
  · intro hu
    have hw : (0 : ℚ) ≤ (t.width : ℚ) := Nat.cast_nonneg t.width
    have hx : f32_as_u32 ((t.width : ℚ) * u) = 0 := by
      unfold f32_as_u32
      rw [if_pos (by nlinarith)]
    unfold Texture.baricentric_pixel
    rw [hx]
  · unfold Texture.baricentric_pixel
    exact pixel_isSome_iff t _ _

/-- C9 counterexample: on a well-formed 1×1 texture (exactly 3 bytes),
sampling at `u = 2` reads byte offset 6 — out of the buffer — and fails, so
sampling is not defined for all coordinates; and a negative coordinate is
saturated to texel 0, not wrapped. -/
theorem c9_out_of_range_cex :
    cexC9tex.baricentric_pixel 2 0 = none ∧
    f32_as_u32 ((cexC9tex.width : ℚ) * (-1)) = 0 := by
  constructor
  · have hx : f32_as_u32 ((cexC9tex.width : ℚ) * 2) = 2 := by
      norm_num [f32_as_u32, cexC9tex]
      rfl
    have hy : f32_as_u32 ((cexC9tex.height : ℚ) * 0) = 0 := by
      norm_num [f32_as_u32, cexC9tex]
    rw [Texture.baricentric_pixel, hx, hy]
    norm_num [Texture.pixel, cexC9tex]
  · norm_num [f32_as_u32, cexC9tex]

theorem Vec3.vmul_def (a b : Vec3) :
    a * b = ⟨a.x * b.x, a.y * b.y, a.z * b.z⟩ := rfl

theorem Vec3.hdiv_def (v : Vec3) (a : ℚ) :
    v / a = ⟨v.x / a, v.y / a, v.z / a⟩ := rfl

theorem Vec3.neg_def (v : Vec3) : -v = ⟨-v.x, -v.y, -v.z⟩ := rfl

theorem Vec3.sub_def (a b : Vec3) :
    a - b = ⟨a.x - b.x, a.y - b.y, a.z - b.z⟩ := rfl

theorem Vec3.hmul_def (v : Vec3) (a : ℚ) :
    v * a = ⟨v.x * a, v.y * a, v.z * a⟩ := rfl

theorem Vec3.mul_scalar_comm (v : Vec3) (a : ℚ) : v * a = a • v := by
  cases v
  rw [Vec3.hmul_def, Vec3.smul_def]
  simp [Rat.mul_comm]

/-- Helper for C8: the shadow pass of `RayTracing::light` multiplies the
accumulator by one half once per light whose shadow ray's nearest hit has an
index different from the shaded object's. -/
theorem shadow_fold {Obj : Type} (ctx : Ctx) (scene : Scene Obj)
    (hitF : Ray → Obj → Option RayHit) (hit : RayHit) (obj_index : ℕ) :
    ∀ (ls : List Light) (acc : Vec3),
      ls.foldl (fun acc l =>
        match trace_ray hitF scene.objects
            ⟨hit.point + EPSILON • hit.normal, -(l.direction ctx hit.point)⟩ with
        | some (_, idx) => if idx ≠ obj_index then acc * (1 / 2 : ℚ) else acc
        | none => acc) acc
      = ((1 / 2 : ℚ) ^ ls.countP (shadowed ctx scene hitF hit obj_index)) • acc := by
  intro ls
  induction ls with
  | nil =>
    intro acc
    simp [Vec3.one_smul]
  | cons l ls ih =>
    intro acc
    rw [List.foldl_cons, ih, List.countP_cons]
    rcases htr : trace_ray hitF scene.objects
        ⟨hit.point + EPSILON • hit.normal, -(l.direction ctx hit.point)⟩ with _ | p
    · simp only [htr]
      have hsh : shadowed ctx scene hitF hit obj_index l = false := by
        simp [shadowed, htr]
      rw [hsh]
      simp
    · rcases p with ⟨rh2, idx⟩
      by_cases hidx : idx ≠ obj_index
      · simp only [htr, if_pos hidx]
        have hsh : shadowed ctx scene hitF hit obj_index l = true := by
          simp [shadowed, htr, hidx]
        rw [hsh, Vec3.mul_scalar_comm, Vec3.smul_smul]
        simp [pow_succ]
      · simp only [htr, if_neg hidx]
        have hsh : shadowed ctx scene hitF hit obj_index l = false := by
          simp [shadowed, htr]
          push_neg at hidx
          exact hidx
        rw [hsh]
        simp

/-- C8 amended: with shadow casting enabled, the local light contribution is
the gamma-corrected base accumulation halved once per light whose shadow ray
(cast from the hit point offset by `EPSILON` along the normal, toward the
light) has a nearest hit on an object whose index differs from the shaded
object's — at any positive distance; the distance to the light is never
compared.  With shadow casting disabled nothing is halved. -/
theorem c8_light_shadow_halving {Obj : Type} (ctx : Ctx) (scene : Scene Obj)
    (hitF : Ray → Obj → Option RayHit) (ray : Ray) (hit : RayHit)
    (albedo : Vec3) (material : Material) (obj_index : ℕ) :
    RayTracing.light ctx scene hitF ray hit albedo material obj_index =
      vpowf ctx
        (((1 / 2 : ℚ) ^ shadow_count ctx scene hitF hit obj_index) •
          light_base ctx scene ray hit albedo material)
        (4166 / 10000) := by
  simp only [RayTracing.light, shadow_count, light_base]
  cases hsc : scene.shadow_casting
  · simp only [Bool.false_eq_true, if_false, pow_zero, Vec3.one_smul]
  · simp only [if_true]
    congr 1
    exact shadow_fold ctx scene hitF hit obj_index scene.lights _

/-- C8 counterexample: the only obstruction along the shadow ray sits at
distance 10 while the light is at distance 1 (nothing is hit before reaching
the light), yet the code halves the contribution — it never compares the hit
distance with the distance to the light. -/
theorem c8_shadow_beyond_light_cex :
    RayTracing.light ctxOne cexC8scene cexC8hitF ray0 cexC8hit ⟨1, 1, 1⟩
      matBase 0 ≠
    claim_light ctxOne cexC8scene cexC8hitF ray0 cexC8hit ⟨1, 1, 1⟩
      matBase 0 := by
  have htr : trace_ray cexC8hitF [0, 1]
      ⟨cexC8hit.point + EPSILON • cexC8hit.normal,
       -(Light.direction ctxOne (Light.Positional ⟨1, 1, 1⟩ ⟨0, 2, 0⟩ 1)
          cexC8hit.point)⟩ =
      some (⟨10, ⟨0, 0, 0⟩, ⟨0, 1, 0⟩, 0, 0, 0⟩, 1) := by
    norm_num [trace_ray, traceLoop, cexC8hitF, fMAX]
  have hbase : light_base ctxOne cexC8scene ray0 cexC8hit ⟨1, 1, 1⟩ matBase =
      ⟨1, 1, 1⟩ := by
    norm_num [light_base, cexC8scene, Ray.blinn_phong, Light.direction,
      Light.distance, Light.intensity, Light.albedoOf, vnormalize, vlength,
      ctxOne, cexC8hit, matBase, ray0, Vec3.dot, Vec3.ZERO, Vec3.add_def,
      Vec3.smul_def, Vec3.hmul_def, Vec3.vmul_def, Vec3.hdiv_def,
      Vec3.sub_def, Vec3.neg_def]
  have hcnt : shadow_count ctxOne cexC8scene cexC8hitF cexC8hit 0 = 1 := by
    simp only [shadow_count, cexC8scene, shadowed, List.countP,
      List.countP.go, htr]
    rfl
  have hcode : RayTracing.light ctxOne cexC8scene cexC8hitF ray0 cexC8hit
      ⟨1, 1, 1⟩ matBase 0 = ⟨1 / 2, 1 / 2, 1 / 2⟩ := by
    rw [c8_light_shadow_halving, hbase, hcnt]
    norm_num [vpowf, ctxOne, Vec3.smul_def]
  have hclaim : claim_light ctxOne cexC8scene cexC8hitF ray0 cexC8hit
      ⟨1, 1, 1⟩ matBase 0 = ⟨1, 1, 1⟩ := by
    simp only [claim_light]
    rw [hbase]
    simp only [cexC8scene, List.foldl_cons, List.foldl_nil, if_true]
    rw [show (Light.distance ctxOne (Light.Positional ⟨1, 1, 1⟩ ⟨0, 2, 0⟩ 1)
        cexC8hit.point) = 1 from rfl]
    simp only [htr]
    norm_num [vpowf, ctxOne]
  rw [hcode, hclaim]
  norm_num [Vec3.mk.injEq]

theorem Vec4.add4_def (a b : Vec4) :
    a + b = ⟨a.x + b.x, a.y + b.y, a.z + b.z, a.w + b.w⟩ := rfl

theorem Vec4.smul4_def (a : ℚ) (v : Vec4) :
    a • v = ⟨a * v.x, a * v.y, a * v.z, a * v.w⟩ := rfl

/-- C1 amended: for every ray that hits no object, the top-level trace
(`albedo`, initial accumulated light `Vec3::ZERO`, initial contribution
`Vec3::ONE`) returns exactly the scene's `ambient_color` whenever
`max_ray_bounces ≥ 1` — the same value for every such bound — but with
`max_ray_bounces = 0` the depth guard fires first and the result is
`Vec3::ZERO` instead. -/
theorem c1_miss_returns_ambient {Obj : Type} (ctx : Ctx) (scene : Scene Obj)
    (hitF : Ray → Obj → Option RayHit) (rnd : ℕ → ℚ) (ray : Ray) (pos : ℕ)
    (hmiss : trace_ray hitF scene.objects ray = none) :
    (1 ≤ scene.max_ray_bounces →
      RayTracing.albedo ctx scene hitF rnd ray pos =
        some (scene.ambient_color, pos)) ∧
    (scene.max_ray_bounces = 0 →
      RayTracing.albedo ctx scene hitF rnd ray pos =
        some (Vec3.ZERO, pos)) := by
  constructor
  · intro hmax
    have hng : ¬ (scene.max_ray_bounces ≤ 0) := by omega
    unfold RayTracing.albedo RayTracing.color RayTracing.color_diffuse
    simp only [Nat.sub_zero]
    cases hd : scene.diffuse
    · simp only [Bool.false_eq_true, if_false]
      rw [RayTracing.colorAux]
      rw [if_neg hng]
      simp only [hmiss, Vec3.zero_add, Vec3.mul_one]
    · simp only [if_true]
      rw [RayTracing.color_diffuseAux]
      rw [if_neg hng]
      simp only [hmiss, Vec3.zero_add, Vec3.mul_one]
  · intro hzero
    have hle : scene.max_ray_bounces ≤ 0 := by omega
    unfold RayTracing.albedo RayTracing.color RayTracing.color_diffuse
    simp only [Nat.sub_zero]
    cases hd : scene.diffuse
    · simp only [Bool.false_eq_true, if_false]
      rw [RayTracing.colorAux]
      rw [if_pos hle]
    · simp only [if_true]
      rw [RayTracing.color_diffuseAux]
      rw [if_pos hle]

/-- Witness for C1 at a concrete empty scene with ambient color `(1,0,0)`
and `max_ray_bounces = 5`. -/
theorem c1_miss_returns_ambient_witness :
    RayTracing.albedo ctxOne witC1scene hitNone tape0 ray0 0 =
      some (witC1scene.ambient_color, 0) :=
  (c1_miss_returns_ambient ctxOne witC1scene hitNone tape0 ray0 0
    (by rfl)).1 (by decide)

/-- C1 counterexample: the same empty scene with `max_ray_bounces = 0`
returns `Vec3::ZERO`, not the (non-zero) ambient color, so the result is not
independent of `max_ray_bounces`. -/
theorem c1_zero_bounces_cex :
    RayTracing.albedo ctxOne cexC1scene hitNone tape0 ray0 0 =
      some (Vec3.ZERO, 0) ∧
    cexC1scene.ambient_color ≠ Vec3.ZERO := by
  refine ⟨rfl, ?_⟩
  norm_num [cexC1scene, Vec3.ZERO, Vec3.mk.injEq]

/-- C10: the sphere intersection applies no positivity filter — whenever the
discriminant is non-negative it returns a hit carrying `t1 = (-b - √disc)/(2a)`
(at the concrete ray from the sphere's center, a hit with negative distance);
only the caller `trace_ray` enforces `distance > 0`. -/
theorem c10_sphere_no_positivity_filter :
    (∀ (ctx : Ctx) (self : Ray) (position : Vec3)
        (transform inv_transform : Mat4) (radius : ℚ) (material_index : ℕ),
        0 ≤ sphere_disc self inv_transform radius →
        ∃ rh, self.sphere_intersection ctx position transform inv_transform
            radius material_index = some rh ∧
          rh.distance = (-(sphere_b self inv_transform) -
            ctx.sqrt (sphere_disc self inv_transform radius)) /
            (2 * sphere_a self inv_transform)) ∧
    (∃ rh, rayAtCenter.sphere_intersection ctxTwo Vec3.ZERO Mat4.id4 Mat4.id4
        1 0 = some rh ∧ rh.distance ≤ 0) ∧
    (∀ (Obj : Type) (hitF : Ray → Obj → Option RayHit) (objects : List Obj)
        (ray : Ray) (rh : RayHit) (idx : ℕ),
        trace_ray hitF objects ray = some (rh, idx) → 0 < rh.distance) := by
  refine ⟨?_, ?_, ?_⟩
  · intro ctx self position transform inv_transform radius material_index hd
    simp only [Ray.sphere_intersection]
    split_ifs with hlt
    · exact absurd hlt (not_lt.mpr hd)
    · exact ⟨_, rfl, rfl⟩
  · refine ⟨⟨-1, ⟨0, 0, -1⟩, ⟨0, 0, -(1 / 2)⟩, 0, 0, 0⟩, ?_, by norm_num⟩
    norm_num [Ray.sphere_intersection, sphere_a, sphere_b, sphere_c,
      rayAtCenter, ctxTwo, Mat4.id4, Mat4.transformPoint, Mat4.transformDir,
      Mat4.mulVec4, Vec4.xyz, Vec3.dot, Vec3.ZERO, vnormalize, Vec3.add_def,
      Vec3.smul_def, Vec3.hmul_def, Vec3.sub_def, Vec3.neg_def,
      Vec4.add4_def, Vec4.smul4_def]
  · intro Obj hitF objects ray rh idx h
    exact (trace_ray_some_spec hitF objects ray rh idx h).1

end RT
